import Mathlib

/-! Verification of the live-conversation audio session of
src/components/LiveConvo.tsx.  Strings on the wire (base64 payloads) are
modelled as lists of character codes (Nat), audio samples and clock times as
rationals, and each React event handler as an explicit function from session
state to session state together with a list of emitted external effects. -/

namespace LiveConvo

/-- Session status values (the AIStatus union type in LiveConvo.tsx). -/
inductive AIStatus
  | idle
  | connecting
  | listening
  | thinking
  | speaking
  | error
  deriving DecidableEq

/-- Speaker tag of a transcript entry (the author field, 'You' or 'AI'). -/
inductive Speaker
  | you
  | ai
  deriving DecidableEq

/-- One transcript history entry (the Transcription interface). -/
structure Transcription where
  author : Speaker
  text : String
  deriving DecidableEq

/-- Lifecycle state of an AudioContext once it has been constructed. -/
inductive CtxState
  | running
  | closed
  deriving DecidableEq

/-- Base64 digit with index n, as a character code (the btoa alphabet). -/
def b64Code (n : Nat) : Nat :=
  if n < 26 then 65 + n
  else if n < 52 then 71 + n
  else if n < 62 then n - 4
  else if n = 62 then 43
  else 47

/-- Index of a base64 digit character code (the atob table). -/
def b64Val (c : Nat) : Nat :=
  if 65 ≤ c ∧ c ≤ 90 then c - 65
  else if 97 ≤ c ∧ c ≤ 122 then c - 71
  else if 48 ≤ c ∧ c ≤ 57 then c + 4
  else if c = 43 then 62
  else 63

/-- Character code of the base64 padding character. -/
def padCode : Nat := 61

/-- The encode helper of LiveConvo.tsx: bytes to a base64 string via
String.fromCharCode and btoa; the string is modelled as its character
codes. -/
def encode : List Nat → List Nat
  | [] => []
  | [a] =>
    [b64Code (a / 4), b64Code (a % 4 * 16), padCode, padCode]
  | [a, b] =>
    [b64Code ((a * 256 + b) / 1024), b64Code ((a * 256 + b) / 16 % 64),
     b64Code ((a * 256 + b) % 16 * 4), padCode]
  | a :: b :: c :: rest =>
    b64Code ((a * 65536 + b * 256 + c) / 262144)
      :: b64Code ((a * 65536 + b * 256 + c) / 4096 % 64)
      :: b64Code ((a * 65536 + b * 256 + c) / 64 % 64)
      :: b64Code ((a * 65536 + b * 256 + c) % 64)
      :: encode rest

/-- The decode helper of LiveConvo.tsx: base64 string (as character codes)
to bytes via atob and charCodeAt. -/
def decode : List Nat → List Nat
  | c0 :: c1 :: c2 :: c3 :: rest =>
    if c2 = padCode then
      [b64Val c0 * 4 + b64Val c1 / 16]
    else if c3 = padCode then
      [(b64Val c0 * 4096 + b64Val c1 * 64 + b64Val c2) / 1024,
       (b64Val c0 * 4096 + b64Val c1 * 64 + b64Val c2) / 4 % 256]
    else
      (b64Val c0 * 262144 + b64Val c1 * 4096 + b64Val c2 * 64 + b64Val c3) / 65536
        :: (b64Val c0 * 262144 + b64Val c1 * 4096 + b64Val c2 * 64 + b64Val c3) / 256 % 256
        :: (b64Val c0 * 262144 + b64Val c1 * 4096 + b64Val c2 * 64 + b64Val c3) % 256
        :: decode rest
  | _ => []

/-- Reinterpret a little-endian byte list as signed 16-bit integers
(new Int16Array(data.buffer)).  The JS constructor throws a RangeError on
a buffer of odd byte length, so the source only ever evaluates this on
even-length data (valid 16-bit PCM payloads); on that domain the model is
exact, and on an odd-length list it simply drops the trailing byte. -/
def bytesToInt16 : List Nat → List Int
  | b0 :: b1 :: rest =>
    (if b0 + 256 * b1 < 32768 then ((b0 + 256 * b1 : Nat) : Int)
     else ((b0 + 256 * b1 : Nat) : Int) - 65536) :: bytesToInt16 rest
  | _ => []

/-- The decodeAudioData helper of LiveConvo.tsx, returning the per-channel
sample data of the constructed AudioBuffer: sample i of channel ch is
dataInt16 at index i * numChannels + ch, divided by 32768. -/
def decodeAudioData (data : List Nat) (numChannels : Nat) : List (List ℚ) :=
  (List.range numChannels).map fun ch =>
    (List.range ((bytesToInt16 data).length / numChannels)).map fun i =>
      (((bytesToInt16 data).getD (i * numChannels + ch) 0 : ℚ) / 32768)

/-- Truncation toward zero of a rational number: the ToInteger step JS
performs when a number is stored into an Int16Array element. -/
def ratTrunc (q : ℚ) : Int := Int.tdiv q.num q.den

/-- Wrap an integer to the signed 16-bit range, the way an Int16Array
element assignment reduces modulo 2 to the 16. -/
def toInt16 (n : Int) : Int := (n + 32768) % 65536 - 32768

/-- The per-sample conversion of the onaudioprocess handler:
int16 of i equals inputData of i times 32768 (truncated, wrapped). -/
def sampleToInt16 (q : ℚ) : Int := toInt16 (ratTrunc (q * 32768))

/-- Little-endian byte serialization of signed 16-bit values
(new Uint8Array(int16.buffer)). -/
def int16Bytes : List Int → List Nat
  | [] => []
  | v :: rest =>
    (v % 65536).toNat % 256 :: (v % 65536).toNat / 256 :: int16Bytes rest

/-- The JS String.prototype.trim call used by the turn-complete handler,
modelled on the character list of the string: drop leading and trailing
whitespace. -/
def trimString (s : String) : String :=
  String.mk
    (((s.data.dropWhile Char.isWhitespace).reverse.dropWhile Char.isWhitespace).reverse)

/-- One server message as consumed by the onmessage callback: the optional
serverContent fields the handler reads.  The audio payload is the base64
string of message.serverContent.modelTurn.parts at 0 .inlineData.data. -/
structure ServerMessage where
  inputTrText : Option String
  outputTrText : Option String
  turnComplete : Bool
  audioData : Option (List Nat)
  interrupted : Bool

/-- The mutable session state of the LiveConvo component: React state
(aiStatus, error, transcription) plus the refs.  Resource refs are options;
cleanup nulls some refs and leaves others populated, exactly as the source
does. -/
structure ConvoState where
  aiStatus : AIStatus
  error : Option String
  transcription : List Transcription
  inputCtx : Option CtxState
  outputCtx : Option CtxState
  sessionOpen : Bool
  mediaTracks : Option (List Nat)
  scriptProcessor : Option Nat
  sources : List Nat
  currentInput : String
  currentOutput : String
  nextStartTime : ℚ
  aiSpeakingTimer : Option Nat
  deriving DecidableEq

/-- External side effects a handler can request on the browser or network. -/
inductive Effect
  | clearTimer (t : Nat)
  | stopTrack (tr : Nat)
  | disconnectNode (n : Nat)
  | closeInputCtx
  | closeOutputCtx
  | closeSession
  | stopSource (s : Nat)
  | startSource (s : Nat) (time : ℚ)
  | setTimer (t : Nat) (delayMs : ℚ)
  | setStatus (s : AIStatus)
  deriving DecidableEq

/-- The state before the component has acquired any resource. -/
def initialState : ConvoState :=
  { aiStatus := .idle
    error := none
    transcription := []
    inputCtx := none
    outputCtx := none
    sessionOpen := false
    mediaTracks := none
    scriptProcessor := none
    sources := []
    currentInput := ""
    currentOutput := ""
    nextStartTime := 0
    aiSpeakingTimer := none }

/-- The cleanup callback of LiveConvo.tsx, in source order: clear the
pending timer (the timer ref is not nulled), stop and null the media
tracks, disconnect and null the script processor, close each audio context
whose state is not closed (the context refs are not nulled), close the
session promise and null it, stop every scheduled source and clear the
set, and finally set the status to idle.  The next-start cursor is not
touched. -/
def cleanup (st : ConvoState) : ConvoState × List Effect :=
  ({ st with
      mediaTracks := none
      scriptProcessor := none
      inputCtx := st.inputCtx.map fun _ => CtxState.closed
      outputCtx := st.outputCtx.map fun _ => CtxState.closed
      sessionOpen := false
      sources := []
      aiStatus := .idle },
   (match st.aiSpeakingTimer with
     | some t => [Effect.clearTimer t]
     | none => [])
     ++ (match st.mediaTracks with
     | some trs => trs.map Effect.stopTrack
     | none => [])
     ++ (match st.scriptProcessor with
     | some n => [Effect.disconnectNode n]
     | none => [])
     ++ (if st.inputCtx = some CtxState.running then [Effect.closeInputCtx] else [])
     ++ (if st.outputCtx = some CtxState.running then [Effect.closeOutputCtx] else [])
     ++ (if st.sessionOpen then [Effect.closeSession] else [])
     ++ st.sources.map Effect.stopSource
     ++ [Effect.setStatus .idle])

/-- The handleInterruptSpeech callback: clear and null the pending timer,
stop every scheduled source, clear the set, reset the next-start cursor to
zero and return to listening. -/
def handleInterruptSpeech (st : ConvoState) : ConvoState × List Effect :=
  ({ st with
      aiSpeakingTimer := none
      sources := []
      nextStartTime := 0
      aiStatus := .listening },
   (match st.aiSpeakingTimer with
     | some t => [Effect.clearTimer t]
     | none => [])
     ++ st.sources.map Effect.stopSource
     ++ [Effect.setStatus .listening])

/-- Duration in seconds of the AudioBuffer decoded from a base64 audio
payload: sample frame count (mono) divided by the 24000 Hz output rate. -/
def durOf (data : List Nat) : ℚ :=
  ((bytesToInt16 (decode data)).length : ℚ) / 24000

/-- The onmessage callback, in source order: append any incremental input
and output transcription text; on turnComplete flush the trimmed non-empty
buffers to the history, clear them and go to thinking; on an audio payload
(with the output context present) go to speaking, clear the pending timer,
schedule a new source at max(cursor, now), advance the cursor by the
buffer duration, register the source and arm the end-of-playback timer; on
interrupted clear the timer, stop and clear all sources, zero the cursor
and return to listening.  The fresh source and timer identifiers and the
output clock reading are passed as arguments. -/
def onmessage (st : ConvoState) (m : ServerMessage) (now : ℚ)
    (srcId timerId : Nat) : ConvoState × List Effect :=
  let st1 :=
    match m.inputTrText with
    | some s => { st with currentInput := st.currentInput ++ s }
    | none => st
  let st2 :=
    match m.outputTrText with
    | some s => { st1 with currentOutput := st1.currentOutput ++ s }
    | none => st1
  let r3 :=
    if m.turnComplete then
      ({ st2 with
          transcription := st2.transcription
            ++ (if trimString st2.currentInput = "" then []
                else [⟨Speaker.you, trimString st2.currentInput⟩])
            ++ (if trimString st2.currentOutput = "" then []
                else [⟨Speaker.ai, trimString st2.currentOutput⟩])
          currentInput := ""
          currentOutput := ""
          aiStatus := .thinking },
       [Effect.setStatus .thinking])
    else (st2, [])
  let r4 :=
    match m.audioData with
    | some data =>
      if data = [] then (r3.1, [])
      else
        match r3.1.outputCtx with
        | some _ =>
          ({ r3.1 with
              aiStatus := .speaking
              nextStartTime := max r3.1.nextStartTime now + durOf data
              sources := r3.1.sources ++ [srcId]
              aiSpeakingTimer := some timerId },
           [Effect.setStatus .speaking]
             ++ (match r3.1.aiSpeakingTimer with
               | some t => [Effect.clearTimer t]
               | none => [])
             ++ [Effect.startSource srcId (max r3.1.nextStartTime now),
                 Effect.setTimer timerId (durOf data * 1000)])
        | none => (r3.1, [])
    | none => (r3.1, [])
  let r5 :=
    if m.interrupted then
      ({ r4.1 with
          sources := []
          nextStartTime := 0
          aiStatus := .listening },
       (match r4.1.aiSpeakingTimer with
         | some t => [Effect.clearTimer t]
         | none => [])
         ++ r4.1.sources.map Effect.stopSource
         ++ [Effect.setStatus .listening])
    else (r4.1, [])
  (r5.1, r3.2 ++ r4.2 ++ r5.2)

/-- One outbound realtime-input message (the pcmBlob sent through
session.sendRealtimeInput). -/
structure OutMsg where
  data : List Nat
  mimeType : String
  deriving DecidableEq

/-- The onaudioprocess handler for one capture frame: convert every float
sample by multiply-by-32768 and Int16Array truncation, base64-encode the
little-endian bytes, and send exactly one realtime-input message tagged
audio/pcm;rate=16000 — provided the session promise ref is set (otherwise
the frame is dropped). -/
def onaudioprocess (st : ConvoState) (frame : List ℚ) : List OutMsg :=
  if st.sessionOpen then
    [⟨encode (int16Bytes (frame.map sampleToInt16)), "audio/pcm;rate=16000"⟩]
  else []

/-- The fixed message shown when microphone access fails. -/
def permissionErrorMsg : String :=
  "Could not access microphone. Please grant permission and try again."

/-- The fixed message shown on a transport error. -/
def connectionErrorMsg : String :=
  "A connection error occurred. Please try again."

/-- Externally triggered events driving the session: the two outcomes of
startConversation's microphone acquisition, the session callbacks, the
end-of-playback timer firing, and the two button actions. -/
inductive Event
  | startGranted (tracks : List Nat)
  | startDenied
  | opened
  | message (m : ServerMessage) (now : ℚ) (srcId timerId : Nat)
  | timerFired (t : Nat)
  | errorEvent
  | closeEvent
  | interruptClick
  | stopClick

/-- One step of the session: how each event's handler transforms the state
and which effects it emits, following the source of startConversation and
the callbacks it installs. -/
def step (st : ConvoState) : Event → ConvoState × List Effect
  | .startGranted tracks =>
    ({ st with
        aiStatus := .connecting
        error := none
        transcription := []
        nextStartTime := 0
        mediaTracks := some tracks
        inputCtx := some .running
        outputCtx := some .running
        sessionOpen := true },
     [Effect.setStatus .connecting])
  | .startDenied =>
    let r := cleanup
      { st with
          aiStatus := .error
          error := some permissionErrorMsg
          transcription := []
          nextStartTime := 0 }
    (r.1, [Effect.setStatus .connecting, Effect.setStatus .error] ++ r.2)
  | .opened =>
    ({ st with aiStatus := .listening, scriptProcessor := some 0 },
     [Effect.setStatus .listening])
  | .message m now srcId timerId => onmessage st m now srcId timerId
  | .timerFired t =>
    if st.aiSpeakingTimer = some t then
      ({ st with aiStatus := .listening }, [Effect.setStatus .listening])
    else (st, [])
  | .errorEvent =>
    let r := cleanup { st with aiStatus := .error, error := some connectionErrorMsg }
    (r.1, [Effect.setStatus .error] ++ r.2)
  | .closeEvent => cleanup st
  | .interruptClick => handleInterruptSpeech st
  | .stopClick => cleanup st

/-- Run a list of events from a state, accumulating all emitted effects. -/
def runEvents : ConvoState → List Event → ConvoState × List Effect
  | st, [] => (st, [])
  | st, e :: es =>
    let r1 := step st e
    let r2 := runEvents r1.1 es
    (r2.1, r1.2 ++ r2.2)

/-- The status values set during a list of effects. -/
def statusesOf (effs : List Effect) : List AIStatus :=
  effs.filterMap fun e =>
    match e with
    | .setStatus s => some s
    | _ => none

/-- The sequence of status values the component passes through while
processing a list of events, starting from the status of the given
state. -/
def statusTrace (st : ConvoState) (events : List Event) : List AIStatus :=
  st.aiStatus :: statusesOf (runEvents st events).2

/-- The scheduled start times requested during a list of effects. -/
def startsOf (effs : List Effect) : List ℚ :=
  effs.filterMap fun e =>
    match e with
    | .startSource _ q => some q
    | _ => none

/-- The source identifiers stopped during a list of effects. -/
def stopsOf (effs : List Effect) : List Nat :=
  effs.filterMap fun e =>
    match e with
    | .stopSource s => some s
    | _ => none

/-- A server message carrying only an audio payload. -/
def audioMsg (data : List Nat) : ServerMessage :=
  ⟨none, none, false, some data, false⟩

/-- A server message carrying only incremental input transcription text. -/
def inputMsg (s : String) : ServerMessage :=
  ⟨some s, none, false, none, false⟩

/-- A server message carrying only the turn-complete flag. -/
def turnMsg : ServerMessage :=
  ⟨none, none, true, none, false⟩

/-- A server message carrying only the interrupted flag. -/
def interruptMsg : ServerMessage :=
  ⟨none, none, false, none, true⟩

/-- The message events delivering a list of audio chunks, each a pair of
the output clock reading at scheduling time and the base64 payload. -/
def audioEvents (chunks : List (ℚ × List Nat)) : List Event :=
  chunks.map fun c => Event.message (audioMsg c.2) c.1 0 0

/-- The start times at which a list of audio chunks gets scheduled by the
onmessage handler, run in sequence without any intervening interruption. -/
def chunkSchedule (st : ConvoState) (chunks : List (ℚ × List Nat)) : List ℚ :=
  startsOf (runEvents st (audioEvents chunks)).2

/-- Reference playback scheduling recurrence: each chunk (now, dur) starts
at max(cursor, now) and the cursor then advances by dur. -/
def scheduleChunks (cursor : ℚ) : List (ℚ × ℚ) → List ℚ
  | [] => []
  | c :: rest => max cursor c.1 :: scheduleChunks (max cursor c.1 + c.2) rest

/-- The state reached from a given state after the onmessage handler
schedules one audio chunk (the fresh identifiers fixed to 0, as in
audioEvents). -/
def audioNext (st : ConvoState) (c : ℚ × List Nat) : ConvoState :=
  { st with
      aiStatus := .speaking
      nextStartTime := max st.nextStartTime c.1 + durOf c.2
      sources := st.sources ++ [0]
      aiSpeakingTimer := some 0 }

/-- The storage key under which the transcript history is persisted. -/
def LIVE_CONVO_STORAGE_KEY : String := "careerCompassLiveConvoHistory"

/-- The browser localStorage, abstracted at the value level: a map from
keys to the (JSON-parsed) stored transcript lists. -/
def Storage : Type := String → Option (List Transcription)

/-- The persistence effect of LiveConvo.tsx: whenever the transcription
list changes, write it under the fixed key if it is non-empty, otherwise
leave the storage untouched. -/
def persistTranscription (store : Storage) (ts : List Transcription) : Storage :=
  if ts.length > 0 then
    fun k => if k = LIVE_CONVO_STORAGE_KEY then some ts else store k
  else store

/-- The mount effect of LiveConvo.tsx: read the fixed key and parse it into
the transcription state, defaulting to the empty history. -/
def loadTranscription (store : Storage) : List Transcription :=
  match store LIVE_CONVO_STORAGE_KEY with
  | some ts => ts
  | none => []

/-- A fully-acquired session state, the AI currently speaking with two
scheduled sources, a pending timer and a non-zero next-start cursor. -/
def activeState : ConvoState :=
  { aiStatus := .speaking
    error := none
    transcription := []
    inputCtx := some .running
    outputCtx := some .running
    sessionOpen := true
    mediaTracks := some [5]
    scriptProcessor := some 3
    sources := [1, 2]
    currentInput := ""
    currentOutput := ""
    nextStartTime := 1
    aiSpeakingTimer := some 7 }

/-- An established session currently listening. -/
def listeningState : ConvoState :=
  { activeState with aiStatus := .listening }

/-- The event sequence of one complete turn with an audio reply: start
with the microphone granted, the connection opens, one audio chunk
arrives (the base64 payload decodes to a two-byte, one-sample PCM
buffer), the remote side signals turn completion, then the playback-end
timer fires. -/
def fullTurnEvents : List Event :=
  [Event.startGranted [0], Event.opened,
   Event.message (audioMsg [65, 65, 65, 61]) 0 1 7,
   Event.message turnMsg 0 2 8,
   Event.timerFired 7]

/-- Two concrete audio chunks at output-clock readings 0 and 1, each
with a two-byte (one-sample) PCM payload. -/
def chunksW : List (ℚ × List Nat) :=
  [(0, [65, 65, 65, 61]), (1, [65, 65, 65, 61])]

/-- An empty storage map. -/
def storeW : Storage := fun _ => none

/-- A one-entry transcript history. -/
def tsW : List Transcription := [⟨Speaker.you, "hello"⟩]

/-- Decoding a base64 digit recovers its index. -/
theorem b64Val_b64Code : ∀ s : Nat, s < 64 → b64Val (b64Code s) = s := by decide

/-- A base64 digit is never the padding character. -/
theorem b64Code_ne_pad : ∀ s : Nat, s < 64 → b64Code s ≠ padCode := by decide

/-- The decode helper inverts the encode helper on byte lists. -/
theorem decode_encode : ∀ l : List Nat, (∀ b ∈ l, b < 256) → decode (encode l) = l := by
  intro l
  induction l using encode.induct with
  | case1 =>
    intro _
    rfl
  | case2 a =>
    intro h
    have ha : a < 256 := h a (by simp)
    have h1 : a / 4 < 64 := by omega
    have h2 : a % 4 * 16 < 64 := by omega
    simp [encode, decode, b64Val_b64Code _ h1, b64Val_b64Code _ h2]
    omega
  | case3 a b =>
    intro h
    have ha : a < 256 := h a (by simp)
    have hb : b < 256 := h b (by simp)
    have h1 : (a * 256 + b) / 1024 < 64 := by omega
    have h2 : (a * 256 + b) / 16 % 64 < 64 := by omega
    have h3 : (a * 256 + b) % 16 * 4 < 64 := by omega
    simp [encode, decode, b64Code_ne_pad _ h3, b64Val_b64Code _ h1,
      b64Val_b64Code _ h2, b64Val_b64Code _ h3]
    constructor <;> omega
  | case4 a b c rest ih =>
    intro h
    have ha : a < 256 := h a (by simp)
    have hb : b < 256 := h b (by simp)
    have hc : c < 256 := h c (by simp)
    have h1 : (a * 65536 + b * 256 + c) / 262144 < 64 := by omega
    have h2 : (a * 65536 + b * 256 + c) / 4096 % 64 < 64 := by omega
    have h3 : (a * 65536 + b * 256 + c) / 64 % 64 < 64 := by omega
    have h4 : (a * 65536 + b * 256 + c) % 64 < 64 := by omega
    have htail : decode (encode rest) = rest :=
      ih fun x hx => h x (by simp [hx])
    simp [encode, decode, b64Code_ne_pad _ h3, b64Code_ne_pad _ h4,
      b64Val_b64Code _ h1, b64Val_b64Code _ h2, b64Val_b64Code _ h3, b64Val_b64Code _ h4,
      htail]
    refine ⟨by omega, by omega, by omega⟩

/-- Every byte produced by the little-endian int16 serialization is below
256. -/
theorem int16Bytes_lt : ∀ l : List Int, ∀ b ∈ int16Bytes l, b < 256 := by
  intro l
  induction l with
  | nil => intro b hb; simp [int16Bytes] at hb
  | cons v rest ih =>
    intro b hb
    have h1 : 0 ≤ v % 65536 := Int.emod_nonneg v (by norm_num)
    have h2 : v % 65536 < 65536 := Int.emod_lt_of_pos v (by norm_num)
    simp only [int16Bytes, List.mem_cons] at hb
    rcases hb with h | h | h
    · subst h; omega
    · subst h; omega
    · exact ih b h

/-- Every value read back from a little-endian byte list is a signed
16-bit integer. -/
theorem bytesToInt16_bounds : ∀ l : List Nat, (∀ b ∈ l, b < 256) →
    ∀ v ∈ bytesToInt16 l, -32768 ≤ v ∧ v ≤ 32767 := by
  intro l
  induction l using bytesToInt16.induct with
  | case1 b0 b1 rest ih =>
    intro h v hv
    have h0 : b0 < 256 := h b0 (by simp)
    have h1 : b1 < 256 := h b1 (by simp)
    simp only [bytesToInt16, List.mem_cons] at hv
    rcases hv with h' | h'
    · subst h'
      split <;> omega
    · exact ih (fun x hx => h x (by simp [hx])) v h'
  | case2 l h' =>
    intro h v hv
    rw [bytesToInt16] at hv
    · simp at hv
    · exact h'

/-- An element fetched with a default is a member of the list or the
default itself. -/
theorem getD_mem_or_default {α : Type} : ∀ (l : List α) (i : Nat) (d : α),
    l.getD i d ∈ l ∨ l.getD i d = d := by
  intro l
  induction l with
  | nil => intro i d; right; cases i <;> rfl
  | cons a rest ih =>
    intro i d
    cases i with
    | zero => left; simp
    | succ n =>
      rcases ih n d with h | h
      · left
        simp only [List.getD_cons_succ]
        exact List.mem_cons_of_mem a h
      · right
        simpa using h

/-- The reference schedule has one start time per chunk. -/
theorem scheduleChunks_length : ∀ (chunks : List (ℚ × ℚ)) (cursor : ℚ),
    (scheduleChunks cursor chunks).length = chunks.length := by
  intro chunks
  induction chunks with
  | nil => intro cur; rfl
  | cons c rest ih =>
    intro cur
    simp [scheduleChunks, ih]

/-- Each scheduled start time is at least the chunk's clock reading. -/
theorem scheduleChunks_getD_ge_now : ∀ (chunks : List (ℚ × ℚ)) (cursor : ℚ) (i : Nat),
    i < chunks.length →
    (chunks.getD i (0, 0)).1 ≤ (scheduleChunks cursor chunks).getD i 0 := by
  intro chunks
  induction chunks with
  | nil => intro cursor i h; simp at h
  | cons c rest ih =>
    intro cursor i h
    cases i with
    | zero =>
      simp only [scheduleChunks, List.getD_cons_zero]
      exact le_max_right cursor c.1
    | succ n =>
      simp only [scheduleChunks, List.getD_cons_succ]
      exact ih _ n (by simpa using h)

/-- The first scheduled start time is at least the entry cursor. -/
theorem scheduleChunks_head_ge : ∀ (chunks : List (ℚ × ℚ)) (cursor : ℚ),
    chunks ≠ [] → cursor ≤ (scheduleChunks cursor chunks).getD 0 0 := by
  intro chunks cursor h
  cases chunks with
  | nil => exact absurd rfl h
  | cons c rest =>
    simp only [scheduleChunks, List.getD_cons_zero]
    exact le_max_left cursor c.1

/-- Each scheduled start time is at least the previous start plus the
previous chunk's duration. -/
theorem scheduleChunks_gap : ∀ (chunks : List (ℚ × ℚ)) (cursor : ℚ) (i : Nat),
    i + 1 < chunks.length →
    (scheduleChunks cursor chunks).getD i 0 + (chunks.getD i (0, 0)).2
      ≤ (scheduleChunks cursor chunks).getD (i + 1) 0 := by
  intro chunks
  induction chunks with
  | nil => intro cursor i h; simp at h
  | cons c rest ih =>
    intro cursor i h
    cases i with
    | zero =>
      have hne : rest ≠ [] := by
        cases rest
        · simp at h
        · simp
      simp only [scheduleChunks, List.getD_cons_zero, List.getD_cons_succ]
      exact scheduleChunks_head_ge rest _ hne
    | succ n =>
      simp only [scheduleChunks, List.getD_cons_succ]
      exact ih _ n (by simpa using h)

/-- A decoded buffer duration is never negative. -/
theorem durOf_nonneg (data : List Nat) : 0 ≤ durOf data := by
  unfold durOf
  positivity

/-- No source is stopped by an empty effect list. -/
theorem stopsOf_nil : stopsOf [] = [] := rfl

/-- Stop calls in a concatenation are those of both parts. -/
theorem stopsOf_append (a b : List Effect) :
    stopsOf (a ++ b) = stopsOf a ++ stopsOf b := by
  simp [stopsOf, List.filterMap_append]

/-- Clearing a timer stops no source. -/
theorem stopsOf_cons_clearTimer (t : Nat) (l : List Effect) :
    stopsOf (Effect.clearTimer t :: l) = stopsOf l := rfl

/-- Setting the status stops no source. -/
theorem stopsOf_cons_setStatus (s : AIStatus) (l : List Effect) :
    stopsOf (Effect.setStatus s :: l) = stopsOf l := rfl

/-- A stop call reports its source identifier. -/
theorem stopsOf_cons_stopSource (s : Nat) (l : List Effect) :
    stopsOf (Effect.stopSource s :: l) = s :: stopsOf l := rfl

/-- Stopping a media track stops no playback source. -/
theorem stopsOf_cons_stopTrack (tr : Nat) (l : List Effect) :
    stopsOf (Effect.stopTrack tr :: l) = stopsOf l := rfl

/-- Disconnecting the processor stops no source. -/
theorem stopsOf_cons_disconnectNode (n : Nat) (l : List Effect) :
    stopsOf (Effect.disconnectNode n :: l) = stopsOf l := rfl

/-- Closing the input context stops no source. -/
theorem stopsOf_cons_closeInputCtx (l : List Effect) :
    stopsOf (Effect.closeInputCtx :: l) = stopsOf l := rfl

/-- Closing the output context stops no source. -/
theorem stopsOf_cons_closeOutputCtx (l : List Effect) :
    stopsOf (Effect.closeOutputCtx :: l) = stopsOf l := rfl

/-- Closing the session stops no source. -/
theorem stopsOf_cons_closeSession (l : List Effect) :
    stopsOf (Effect.closeSession :: l) = stopsOf l := rfl

/-- Stopping a list of sources reports exactly those identifiers. -/
theorem stopsOf_map_stopSource : ∀ l : List Nat, stopsOf (l.map Effect.stopSource) = l := by
  intro l
  induction l with
  | nil => rfl
  | cons s rest ih =>
    simp only [List.map_cons, stopsOf_cons_stopSource, ih]

/-- Stopping media tracks stops no playback source. -/
theorem stopsOf_map_stopTrack : ∀ l : List Nat, stopsOf (l.map Effect.stopTrack) = [] := by
  intro l
  induction l with
  | nil => rfl
  | cons s rest ih =>
    simp only [List.map_cons]
    exact ih

/-- The onmessage handler on a pure audio message: speaking status, the
old timer cleared, the source started at max(cursor, now), the cursor
advanced by the buffer duration, the source registered and the
end-of-playback timer armed. -/
theorem onmessage_audio (st : ConvoState) (now : ℚ) (data : List Nat) (i t : Nat)
    (hctx : st.outputCtx.isSome = true) (hdata : data ≠ []) :
    onmessage st (audioMsg data) now i t =
      ({ st with
          aiStatus := .speaking
          nextStartTime := max st.nextStartTime now + durOf data
          sources := st.sources ++ [i]
          aiSpeakingTimer := some t },
       [Effect.setStatus .speaking]
         ++ (match st.aiSpeakingTimer with
           | some t0 => [Effect.clearTimer t0]
           | none => [])
         ++ [Effect.startSource i (max st.nextStartTime now),
             Effect.setTimer t (durOf data * 1000)]) := by
  obtain ⟨c0, hc⟩ := Option.isSome_iff_exists.mp hctx
  cases htm : st.aiSpeakingTimer <;>
    simp [onmessage, audioMsg, hc, hdata, htm]

/-- Scheduling a first audio chunk starts it at max(cursor, now) and
continues from the advanced state. -/
theorem chunkSchedule_cons (st : ConvoState) (c : ℚ × List Nat)
    (rest : List (ℚ × List Nat)) (hctx : st.outputCtx.isSome = true) (hc : c.2 ≠ []) :
    chunkSchedule st (c :: rest)
      = max st.nextStartTime c.1 :: chunkSchedule (audioNext st c) rest := by
  simp only [chunkSchedule, audioEvents, List.map_cons, runEvents, step]
  rw [onmessage_audio st c.1 c.2 0 0 hctx hc]
  cases htm : st.aiSpeakingTimer <;>
    simp [startsOf, audioNext, List.filterMap_append, htm]

/-- The start times produced by running the audio messages equal the
reference scheduling recurrence started at the state's cursor. -/
theorem chunkSchedule_eq : ∀ (chunks : List (ℚ × List Nat)) (st : ConvoState),
    st.outputCtx.isSome = true → (∀ c ∈ chunks, c.2 ≠ []) →
    chunkSchedule st chunks
      = scheduleChunks st.nextStartTime (chunks.map fun c => (c.1, durOf c.2)) := by
  intro chunks
  induction chunks with
  | nil => intro st h1 h2; rfl
  | cons c rest ih =>
    intro st h1 h2
    rw [chunkSchedule_cons st c rest h1 (h2 c (by simp))]
    simp only [List.map_cons, scheduleChunks, List.cons.injEq, true_and]
    have h1' : (audioNext st c).outputCtx.isSome = true := by
      simpa [audioNext] using h1
    have hrec := ih (audioNext st c) h1' fun x hx => h2 x (by simp [hx])
    simpa [audioNext] using hrec

/-- Indexing the duration-mapped chunk list below its length. -/
theorem getD_map_sched : ∀ (l : List (ℚ × List Nat)) (i : Nat), i < l.length →
    (l.map fun c => (c.1, durOf c.2)).getD i (0, 0)
      = ((l.getD i (0, [])).1, durOf (l.getD i (0, [])).2) := by
  intro l
  induction l with
  | nil => intro i h; simp at h
  | cons c rest ih =>
    intro i h
    cases i with
    | zero => simp
    | succ n => simpa using ih n (by simpa using h)

/-- Claim C1 counterexample: cleanup does not reset the next-start
cursor; invoked on a state whose cursor is 1, the cursor is still 1
afterwards, not 0 as the claim states. -/
theorem cleanup_leaves_cursor :
    (cleanup activeState).1.nextStartTime = 1 ∧
    ¬ (cleanup activeState).1.nextStartTime = 0 := by
  refine ⟨rfl, by decide⟩

/-- Claim C1 (amended): cleanup, from any entry state, cancels the
pending playback-end timer, stops and releases the microphone tracks,
disconnects the capture processing node, closes both audio contexts if
open, closes the network session if open, stops and clears every
scheduled playback buffer and ends with status idle — but it leaves the
next-start cursor unchanged; the cursor is instead reset to zero when
the next session starts. -/
theorem cleanup_teardown_spec (st : ConvoState) (t n : Nat) (trs : List Nat)
    (ht : st.aiSpeakingTimer = some t)
    (hm : st.mediaTracks = some trs)
    (hp : st.scriptProcessor = some n)
    (hin : st.inputCtx = some CtxState.running)
    (hout : st.outputCtx = some CtxState.running)
    (hs : st.sessionOpen = true) :
    Effect.clearTimer t ∈ (cleanup st).2 ∧
    (∀ tr ∈ trs, Effect.stopTrack tr ∈ (cleanup st).2) ∧
    Effect.disconnectNode n ∈ (cleanup st).2 ∧
    Effect.closeInputCtx ∈ (cleanup st).2 ∧
    Effect.closeOutputCtx ∈ (cleanup st).2 ∧
    Effect.closeSession ∈ (cleanup st).2 ∧
    stopsOf (cleanup st).2 = st.sources ∧
    (cleanup st).1.mediaTracks = none ∧
    (cleanup st).1.scriptProcessor = none ∧
    (cleanup st).1.inputCtx = some CtxState.closed ∧
    (cleanup st).1.outputCtx = some CtxState.closed ∧
    (cleanup st).1.sessionOpen = false ∧
    (cleanup st).1.sources = [] ∧
    (cleanup st).1.aiStatus = AIStatus.idle ∧
    (cleanup st).1.nextStartTime = st.nextStartTime ∧
    (∀ trs2, (step st (Event.startGranted trs2)).1.nextStartTime = 0) := by
  refine ⟨?_, ?_, ?_, ?_, ?_, ?_, ?_, rfl, rfl, ?_, ?_, rfl, rfl, rfl, rfl, fun trs2 => rfl⟩
  · simp [cleanup, ht]
  · intro tr htr
    simp [cleanup, hm, htr]
  · simp [cleanup, hp]
  · simp [cleanup, hin]
  · simp [cleanup, hout]
  · simp [cleanup, hs]
  · simp [cleanup, ht, hm, hp, hin, hout, hs, stopsOf_append, stopsOf_nil,
      stopsOf_cons_clearTimer, stopsOf_cons_setStatus, stopsOf_cons_stopTrack,
      stopsOf_cons_disconnectNode, stopsOf_cons_closeInputCtx, stopsOf_cons_closeOutputCtx,
      stopsOf_cons_closeSession, stopsOf_map_stopSource, stopsOf_map_stopTrack]
  · simp [cleanup, hin]
  · simp [cleanup, hout]

/-- Claim C1 witness: the amended teardown behaviour at the concrete
fully-acquired state. -/
theorem cleanup_teardown_spec_witness :
    activeState.aiSpeakingTimer = some 7 ∧
    activeState.mediaTracks = some [5] ∧
    activeState.scriptProcessor = some 3 ∧
    activeState.inputCtx = some CtxState.running ∧
    activeState.outputCtx = some CtxState.running ∧
    activeState.sessionOpen = true ∧
    (Effect.clearTimer 7 ∈ (cleanup activeState).2 ∧
     (∀ tr ∈ [5], Effect.stopTrack tr ∈ (cleanup activeState).2) ∧
     Effect.disconnectNode 3 ∈ (cleanup activeState).2 ∧
     Effect.closeInputCtx ∈ (cleanup activeState).2 ∧
     Effect.closeOutputCtx ∈ (cleanup activeState).2 ∧
     Effect.closeSession ∈ (cleanup activeState).2 ∧
     stopsOf (cleanup activeState).2 = activeState.sources ∧
     (cleanup activeState).1.mediaTracks = none ∧
     (cleanup activeState).1.scriptProcessor = none ∧
     (cleanup activeState).1.inputCtx = some CtxState.closed ∧
     (cleanup activeState).1.outputCtx = some CtxState.closed ∧
     (cleanup activeState).1.sessionOpen = false ∧
     (cleanup activeState).1.sources = [] ∧
     (cleanup activeState).1.aiStatus = AIStatus.idle ∧
     (cleanup activeState).1.nextStartTime = activeState.nextStartTime ∧
     (∀ trs2, (step activeState (Event.startGranted trs2)).1.nextStartTime = 0)) :=
  ⟨rfl, rfl, rfl, rfl, rfl, rfl,
   cleanup_teardown_spec activeState 7 3 [5] rfl rfl rfl rfl rfl rfl⟩

/-- Claim C2 (code-bug evidence): when microphone access is denied at
session start, the fixed permission message is stored and the status
passes through error, but the cleanup call that follows sets the status
back to idle, so the session ends in idle, not in the error state. -/
theorem mic_denied_ends_idle :
    statusTrace initialState [Event.startDenied]
      = [AIStatus.idle, AIStatus.connecting, AIStatus.error, AIStatus.idle] ∧
    (runEvents initialState [Event.startDenied]).1.error = some permissionErrorMsg ∧
    (runEvents initialState [Event.startDenied]).1.aiStatus = AIStatus.idle ∧
    ¬ (runEvents initialState [Event.startDenied]).1.aiStatus = AIStatus.error := by
  refine ⟨by decide, by decide, by decide, by decide⟩

/-- Claim C3: audio chunks scheduled by onmessage without an intervening
interruption follow the max(cursor, clock-now) recurrence with the cursor
advanced by each chunk's duration, hence each start is at least the
chunk's output-clock reading, each start is at least the previous start
plus the previous duration, and the start times are non-decreasing. -/
theorem playback_schedule_ordered (st : ConvoState) (chunks : List (ℚ × List Nat))
    (hctx : st.outputCtx.isSome = true) (hdata : ∀ c ∈ chunks, c.2 ≠ []) :
    chunkSchedule st chunks
      = scheduleChunks st.nextStartTime (chunks.map fun c => (c.1, durOf c.2)) ∧
    (∀ i, i < chunks.length →
      (chunks.getD i (0, [])).1 ≤ (chunkSchedule st chunks).getD i 0) ∧
    (∀ i, i + 1 < chunks.length →
      (chunkSchedule st chunks).getD i 0 + durOf (chunks.getD i (0, [])).2
        ≤ (chunkSchedule st chunks).getD (i + 1) 0) ∧
    (∀ i, i + 1 < chunks.length →
      (chunkSchedule st chunks).getD i 0 ≤ (chunkSchedule st chunks).getD (i + 1) 0) := by
  have heq := chunkSchedule_eq chunks st hctx hdata
  have hgap : ∀ i, i + 1 < chunks.length →
      (chunkSchedule st chunks).getD i 0 + durOf (chunks.getD i (0, [])).2
        ≤ (chunkSchedule st chunks).getD (i + 1) 0 := by
    intro i hi
    rw [heq]
    have h := scheduleChunks_gap (chunks.map fun c => (c.1, durOf c.2))
      st.nextStartTime i (by simpa using hi)
    rwa [getD_map_sched chunks i (by omega)] at h
  refine ⟨heq, ?_, hgap, ?_⟩
  · intro i hi
    rw [heq]
    have h := scheduleChunks_getD_ge_now (chunks.map fun c => (c.1, durOf c.2))
      st.nextStartTime i (by simpa using hi)
    rwa [getD_map_sched chunks i hi] at h
  · intro i hi
    have h := hgap i hi
    have hd := durOf_nonneg (chunks.getD i (0, [])).2
    linarith

/-- Claim C3 witness: the scheduling properties at a concrete state and
two concrete chunks. -/
theorem playback_schedule_ordered_witness :
    listeningState.outputCtx.isSome = true ∧
    (∀ c ∈ chunksW, c.2 ≠ []) ∧
    (chunkSchedule listeningState chunksW
        = scheduleChunks listeningState.nextStartTime
            (chunksW.map fun c => (c.1, durOf c.2)) ∧
     (∀ i, i < chunksW.length →
       (chunksW.getD i (0, [])).1 ≤ (chunkSchedule listeningState chunksW).getD i 0) ∧
     (∀ i, i + 1 < chunksW.length →
       (chunkSchedule listeningState chunksW).getD i 0 + durOf (chunksW.getD i (0, [])).2
         ≤ (chunkSchedule listeningState chunksW).getD (i + 1) 0) ∧
     (∀ i, i + 1 < chunksW.length →
       (chunkSchedule listeningState chunksW).getD i 0
         ≤ (chunkSchedule listeningState chunksW).getD (i + 1) 0)) :=
  ⟨rfl, by decide, playback_schedule_ordered listeningState chunksW rfl (by decide)⟩

/-- Claim C4: an interruption — the remote interrupted signal or the
user-initiated cancel — issues a stop call for exactly the sources in
the active set, empties the set, and resets the next-start cursor to
zero. -/
theorem interruption_stops_all_sources (st : ConvoState) (now : ℚ) (i t : Nat) :
    (onmessage st interruptMsg now i t).1.sources = [] ∧
    (onmessage st interruptMsg now i t).1.nextStartTime = 0 ∧
    stopsOf (onmessage st interruptMsg now i t).2 = st.sources ∧
    (handleInterruptSpeech st).1.sources = [] ∧
    (handleInterruptSpeech st).1.nextStartTime = 0 ∧
    stopsOf (handleInterruptSpeech st).2 = st.sources := by
  cases htm : st.aiSpeakingTimer <;>
    simp [onmessage, interruptMsg, handleInterruptSpeech, htm, stopsOf_append,
      stopsOf_nil, stopsOf_cons_clearTimer, stopsOf_cons_setStatus,
      stopsOf_map_stopSource]

/-- Claim C5: on a turn-complete signal the handler trims both pending
buffers, appends a You entry then an AI entry exactly when non-empty
after trimming, and clears both buffers; and the partial inputs
"I enjoy" then " coding" followed by turn-complete with no output text
yield exactly one You entry "I enjoy coding" and no AI entry. -/
theorem turn_complete_flush :
    (∀ (st : ConvoState) (now : ℚ) (i t : Nat),
      (onmessage st turnMsg now i t).1.transcription
        = st.transcription
          ++ (if trimString st.currentInput = "" then []
              else [⟨Speaker.you, trimString st.currentInput⟩])
          ++ (if trimString st.currentOutput = "" then []
              else [⟨Speaker.ai, trimString st.currentOutput⟩]) ∧
      (onmessage st turnMsg now i t).1.currentInput = "" ∧
      (onmessage st turnMsg now i t).1.currentOutput = "") ∧
    (runEvents initialState
        [Event.message (inputMsg "I enjoy") 0 0 0,
         Event.message (inputMsg " coding") 0 0 0,
         Event.message turnMsg 0 0 0]).1.transcription
      = [⟨Speaker.you, "I enjoy coding"⟩] := by
  constructor
  · intro st now i t
    refine ⟨?_, rfl, rfl⟩
    simp [onmessage, turnMsg]
  · decide

/-- Claim C6: while the session is listening (so the session promise ref
is set), every capture frame produces exactly one outbound realtime-input
message, tagged audio/pcm;rate=16000, whose payload is the base64
encoding of the frame's samples converted by multiply-by-32768
truncation with 16-bit wrap-around; decoding the payload returns exactly
those sample bytes. -/
theorem capture_frame_single_message (st : ConvoState) (frame : List ℚ)
    (_hl : st.aiStatus = AIStatus.listening) (hs : st.sessionOpen = true) :
    onaudioprocess st frame
      = [⟨encode (int16Bytes (frame.map sampleToInt16)), "audio/pcm;rate=16000"⟩] ∧
    (onaudioprocess st frame).length = 1 ∧
    (∀ m ∈ onaudioprocess st frame,
      m.mimeType = "audio/pcm;rate=16000" ∧
      decode m.data = int16Bytes (frame.map sampleToInt16)) ∧
    (∀ q : ℚ, sampleToInt16 q = toInt16 (ratTrunc (q * 32768))) := by
  have hmsg : onaudioprocess st frame
      = [⟨encode (int16Bytes (frame.map sampleToInt16)), "audio/pcm;rate=16000"⟩] := by
    simp [onaudioprocess, hs]
  refine ⟨hmsg, by rw [hmsg]; rfl, ?_, fun q => rfl⟩
  intro m hm
  rw [hmsg] at hm
  simp only [List.mem_singleton] at hm
  subst hm
  exact ⟨rfl, decode_encode _ (int16Bytes_lt _)⟩

/-- Claim C6 witness: the capture property at a concrete listening state
and a concrete two-sample frame. -/
theorem capture_frame_single_message_witness :
    listeningState.aiStatus = AIStatus.listening ∧
    listeningState.sessionOpen = true ∧
    (onaudioprocess listeningState [1 / 2, -1]
        = [⟨encode (int16Bytes ([1 / 2, -1].map sampleToInt16)), "audio/pcm;rate=16000"⟩] ∧
     (onaudioprocess listeningState [1 / 2, -1]).length = 1 ∧
     (∀ m ∈ onaudioprocess listeningState [1 / 2, -1],
       m.mimeType = "audio/pcm;rate=16000" ∧
       decode m.data = int16Bytes ([1 / 2, -1].map sampleToInt16)) ∧
     (∀ q : ℚ, sampleToInt16 q = toInt16 (ratTrunc (q * 32768)))) :=
  ⟨rfl, rfl, capture_frame_single_message listeningState [1 / 2, -1] rfl rfl⟩

/-- Claim C7: teardown is idempotent — cleanup always ends with status
idle, a second invocation reproduces the same state, its only effects
are the harmless clearTimeout of the stale timer id and the idle status
update (every release step is independently guarded), and from the
never-acquired initial state cleanup changes nothing and releases
nothing. -/
theorem cleanup_idempotent (st : ConvoState) :
    (cleanup st).1.aiStatus = AIStatus.idle ∧
    (cleanup (cleanup st).1).1 = (cleanup st).1 ∧
    (cleanup (cleanup st).1).1.aiStatus = AIStatus.idle ∧
    (cleanup (cleanup st).1).2
      = (match st.aiSpeakingTimer with
          | some t => [Effect.clearTimer t]
          | none => []) ++ [Effect.setStatus AIStatus.idle] ∧
    cleanup initialState = (initialState, [Effect.setStatus AIStatus.idle]) := by
  refine ⟨rfl, ?_, ?_, ?_, by decide⟩
  · cases hin : st.inputCtx <;> cases hout : st.outputCtx <;>
      simp [cleanup, hin, hout]
  · rfl
  · cases htm : st.aiSpeakingTimer <;>
      cases hin : st.inputCtx <;> cases hout : st.outputCtx <;>
      simp [cleanup, htm, hin, hout]

/-- Claim C8 counterexample: a full turn with an audio reply passes
through the thinking state set by the turn-complete signal, so the
status sequence is not the claimed one without thinking. -/
theorem full_turn_trace_counterexample :
    statusTrace initialState fullTurnEvents
      = [AIStatus.idle, AIStatus.connecting, AIStatus.listening,
         AIStatus.speaking, AIStatus.thinking, AIStatus.listening] ∧
    ¬ statusTrace initialState fullTurnEvents
      = [AIStatus.idle, AIStatus.connecting, AIStatus.listening,
         AIStatus.speaking, AIStatus.listening] := by
  refine ⟨by decide, by decide⟩

/-- Claim C8 (amended): a full turn with an audio reply passes through
exactly idle, connecting, listening, speaking, thinking, listening —
turn completion inserts thinking between speaking and the timer-driven
return to listening. -/
theorem full_turn_trace_thinking :
    statusTrace initialState fullTurnEvents
      = [AIStatus.idle, AIStatus.connecting, AIStatus.listening,
         AIStatus.speaking, AIStatus.thinking, AIStatus.listening] := by
  decide

/-- Claim C9: the transcript history is persisted under the fixed
storage key (other keys are untouched), loading reads that key back, and
persisting the empty list — as when a new session resets the in-memory
transcript — never rewrites or erases the stored history. -/
theorem transcript_persistence (store : Storage) (ts : List Transcription)
    (k : String) (h : ts ≠ []) :
    persistTranscription store [] = store ∧
    loadTranscription (persistTranscription store []) = loadTranscription store ∧
    persistTranscription store ts LIVE_CONVO_STORAGE_KEY = some ts ∧
    (¬ k = LIVE_CONVO_STORAGE_KEY → persistTranscription store ts k = store k) ∧
    loadTranscription (persistTranscription store ts) = ts := by
  have hlen : ts.length > 0 := List.length_pos.mpr h
  refine ⟨rfl, rfl, ?_, ?_, ?_⟩
  · simp [persistTranscription, hlen]
  · intro hk
    simp [persistTranscription, hlen, hk]
  · simp [loadTranscription, persistTranscription, hlen]

/-- Claim C9 witness: persistence behaviour at a concrete store, a
concrete one-entry history and a concrete foreign key. -/
theorem transcript_persistence_witness :
    tsW ≠ [] ∧
    (persistTranscription storeW [] = storeW ∧
     loadTranscription (persistTranscription storeW []) = loadTranscription storeW ∧
     persistTranscription storeW tsW LIVE_CONVO_STORAGE_KEY = some tsW ∧
     (¬ "other" = LIVE_CONVO_STORAGE_KEY →
       persistTranscription storeW tsW "other" = storeW "other") ∧
     loadTranscription (persistTranscription storeW tsW) = tsW) :=
  ⟨by decide, transcript_persistence storeW tsW "other" (by decide)⟩

/-- Claim C10: the base64 helpers are mutual inverses on byte lists, so
a playback chunk's bytes survive the round trip unchanged, and every
sample produced by decodeAudioData — a signed 16-bit value divided by
32768 — lies in the interval from -1 inclusive to 1 exclusive. -/
theorem base64_roundtrip_and_sample_range (bytes data : List Nat) (numChannels : Nat)
    (hb : ∀ b ∈ bytes, b < 256) (hd : ∀ b ∈ data, b < 256) :
    decode (encode bytes) = bytes ∧
    (∀ chan ∈ decodeAudioData data numChannels, ∀ s ∈ chan, -1 ≤ s ∧ s < 1) := by
  refine ⟨decode_encode bytes hb, ?_⟩
  intro chan hchan s hs
  simp only [decodeAudioData, List.mem_map] at hchan
  obtain ⟨ch, -, rfl⟩ := hchan
  simp only [List.mem_map] at hs
  obtain ⟨j, -, rfl⟩ := hs
  have hbound : -32768 ≤ (bytesToInt16 data).getD (j * numChannels + ch) 0 ∧
      (bytesToInt16 data).getD (j * numChannels + ch) 0 ≤ 32767 := by
    rcases getD_mem_or_default (bytesToInt16 data) (j * numChannels + ch) 0 with hmem | hdef
    · exact bytesToInt16_bounds data hd _ hmem
    · rw [hdef]
      norm_num
  constructor
  · rw [le_div_iff₀ (by norm_num : (0 : ℚ) < 32768)]
    have h1 : ((-32768 : Int) : ℚ)
        ≤ (((bytesToInt16 data).getD (j * numChannels + ch) 0 : Int) : ℚ) :=
      Int.cast_le.mpr hbound.1
    calc (-1 : ℚ) * 32768 = ((-32768 : Int) : ℚ) := by norm_num
      _ ≤ _ := h1
  · rw [div_lt_one (by norm_num : (0 : ℚ) < 32768)]
    have h32 : (bytesToInt16 data).getD (j * numChannels + ch) 0 < 32768 := by omega
    exact_mod_cast h32

/-- Claim C10 witness: the round trip and the sample range at concrete
byte lists. -/
theorem base64_roundtrip_and_sample_range_witness :
    (∀ b ∈ [0, 127, 255, 7], b < 256) ∧
    (∀ b ∈ [255, 255, 0, 128], b < 256) ∧
    (decode (encode [0, 127, 255, 7]) = [0, 127, 255, 7] ∧
     (∀ chan ∈ decodeAudioData [255, 255, 0, 128] 1, ∀ s ∈ chan, -1 ≤ s ∧ s < 1)) :=
  ⟨by decide, by decide,
   base64_roundtrip_and_sample_range [0, 127, 255, 7] [255, 255, 0, 128] 1
     (by decide) (by decide)⟩

end LiveConvo
